import Mathlib

set_option maxHeartbeats 1000000

/-!
Verification of `Bio/Tree/PhyloXMLTree.py` (biopython).

The module implements the phyloXML object model: a family of `PhyloElement`
classes whose constructors store keyword arguments in the instance `__dict__`,
a recursive depth-first query engine (`Clade.find` with its inner helpers
`is_matching_node` and `local_find`), singleton-collection accessors,
dictionary-like behaviour on `Events` and `Phyloxml`, and small pure
conversions (`BranchColor.to_rgb`, `Sequence.from_seqrecord`/`to_seqrecord`).

Python values stored in element dictionaries are embedded as the inductive
type `Value` below: `vnone` is Python `None`, `vstr`/`vint`/`vbool` are the
primitive types, `vlist` a Python list, `vdict` a plain Python dict, and
`velem kind dict` a `PhyloElement` instance of class `kind` with instance
dictionary `dict`.
-/

namespace PhyloXML

/-- The concrete `PhyloElement` subclasses of the module (class tags).
`phyloElement` is the common base class itself. -/
inductive Kind where
  | phyloElement
  | phyloxml
  | otherElem
  | phylogeny
  | clade
  | accession
  | annot
  | binaryCharacters
  | branchColor
  | cladeRelation
  | confidence
  | date
  | distribution
  | domainArchitecture
  | events
  | idTag
  | point
  | polygon
  | property
  | proteinDomain
  | reference
  | sequence
  | sequenceRelation
  | taxonomy
  | uri
deriving DecidableEq

/-- Embedded Python values (the shapes stored in `PhyloElement.__dict__`). -/
inductive Value where
  | vnone : Value
  | vstr : String → Value
  | vint : Int → Value
  | vbool : Bool → Value
  | vdict : List (String × Value) → Value
  | vlist : List Value → Value
  | velem : Kind → List (String × Value) → Value

/-- An instance `__dict__`: attribute names paired with their values.
A field set to `None` in Python is present here with value `vnone`
(`hasattr` is true for it), while a genuinely missing attribute has no
entry at all. -/
abbrev Dict := List (String × Value)

/-- `getattr`/`hasattr` on the instance dictionary: first entry wins. -/
def lookupAttr : Dict → String → Option Value
  | [], _ => none
  | (k, v) :: rest, key => if k = key then some v else lookupAttr rest key

/-- `setattr` on the instance dictionary: replace an existing entry or
append a new one. -/
def setAttr : Dict → String → Value → Dict
  | [], key, v => [(key, v)]
  | (k, w) :: rest, key, v =>
    if k = key then (k, v) :: rest else (k, w) :: setAttr rest key v

/-- Is this value a `PhyloElement` instance (`isinstance(x, PhyloElement)`)? -/
def isElemB : Value → Bool
  | .velem _ _ => true
  | _ => false

@[simp] theorem isElemB_velem (k : Kind) (d : List (String × Value)) :
    isElemB (.velem k d) = true := rfl

@[simp] theorem isElemB_vnone : isElemB .vnone = false := rfl

@[simp] theorem isElemB_vstr (s : String) : isElemB (.vstr s) = false := rfl

@[simp] theorem isElemB_vint (n : Int) : isElemB (.vint n) = false := rfl

@[simp] theorem isElemB_vbool (b : Bool) : isElemB (.vbool b) = false := rfl

@[simp] theorem isElemB_vdict (es : List (String × Value)) :
    isElemB (.vdict es) = false := rfl

@[simp] theorem isElemB_vlist (xs : List Value) :
    isElemB (.vlist xs) = false := rfl

/-- Is this value Python `None`? -/
def isNoneB : Value → Bool
  | .vnone => true
  | _ => false

/-- Is this value a Python string (`isinstance(x, basestring)`)? -/
def isStrB : Value → Bool
  | .vstr _ => true
  | _ => false

theorem lookupAttr_setAttr_self (d : Dict) (key : String) (v : Value) :
    lookupAttr (setAttr d key v) key = some v := by
  induction d with
  | nil => simp [setAttr, lookupAttr]
  | cons kv rest ih =>
    by_cases h : kv.1 = key
    · simp [setAttr, h, lookupAttr]
    · simp [setAttr, h, lookupAttr, ih]

/-- `sorted(node.__dict__.iteritems())`: Python sorts the `(name, value)`
pairs; since keys in a dict are unique, the order is determined by
comparing the attribute names. Modelled by a stable insertion sort on the
name component. -/
def sortFields (d : Dict) : Dict :=
  List.insertionSort (fun a b => a.1 ≤ b.1) d

theorem sortFields_perm (d : Dict) : List.Perm (sortFields d) d :=
  List.perm_insertionSort _ d

theorem perm_sizeOf_eq {α : Type} [SizeOf α] {l₁ l₂ : List α}
    (h : List.Perm l₁ l₂) : sizeOf l₁ = sizeOf l₂ := by
  induction h with
  | nil => rfl
  | cons x _ ih => simp only [List.cons.sizeOf_spec]; omega
  | swap x y l => simp only [List.cons.sizeOf_spec]; omega
  | trans _ _ ih₁ ih₂ => omega

theorem list_sizeOf_append {α : Type} [SizeOf α] (l₁ l₂ : List α) :
    sizeOf (l₁ ++ l₂) + 1 = sizeOf l₁ + sizeOf l₂ := by
  induction l₁ with
  | nil => simp [List.nil.sizeOf_spec]; omega
  | cons x xs ih =>
    simp only [List.cons_append, List.cons.sizeOf_spec]
    omega

/-- The accumulation loop of `local_find`: walk the (sorted) fields,
skipping `None` values, collecting list fields' elements into `lists`
(flattened, in field order) and every other value into `singles`. -/
def splitFields : Dict → List Value × List Value
  | [] => ([], [])
  | (_, v) :: rest =>
    let sl := splitFields rest
    match v with
    | .vnone => sl
    | .vlist xs => (sl.1, xs ++ sl.2)
    | w => (w :: sl.1, sl.2)

theorem splitFields_sizeOf (d : Dict) :
    sizeOf (splitFields d).1 + sizeOf (splitFields d).2 ≤ 1 + sizeOf d := by
  induction d with
  | nil => simp [splitFields, List.nil.sizeOf_spec]
  | cons nv rest ih =>
    obtain ⟨n, v⟩ := nv
    match v with
    | .vnone =>
      simp only [splitFields, List.cons.sizeOf_spec, Prod.mk.sizeOf_spec]
      omega
    | .vlist xs =>
      simp only [splitFields, List.cons.sizeOf_spec, Prod.mk.sizeOf_spec,
        Value.vlist.sizeOf_spec]
      have hap := list_sizeOf_append xs (splitFields rest).2
      omega
    | .vstr s =>
      simp only [splitFields, List.cons.sizeOf_spec, Prod.mk.sizeOf_spec,
        Value.vstr.sizeOf_spec]
      omega
    | .vint n' =>
      simp only [splitFields, List.cons.sizeOf_spec, Prod.mk.sizeOf_spec,
        Value.vint.sizeOf_spec]
      omega
    | .vbool b =>
      simp only [splitFields, List.cons.sizeOf_spec, Prod.mk.sizeOf_spec,
        Value.vbool.sizeOf_spec]
      omega
    | .vdict es =>
      simp only [splitFields, List.cons.sizeOf_spec, Prod.mk.sizeOf_spec,
        Value.vdict.sizeOf_spec]
      omega
    | .velem k dd =>
      simp only [splitFields, List.cons.sizeOf_spec, Prod.mk.sizeOf_spec,
        Value.velem.sizeOf_spec]
      omega

/-- The item sequence `singles + lists` that `local_find` iterates for one
node's dictionary: sort the fields by name, drop `None` fields, then all
non-list values (in field order) followed by all list fields' elements
(flattened, in field order). -/
def childItems (d : Dict) : List Value :=
  (splitFields (sortFields d)).1 ++ (splitFields (sortFields d)).2

theorem childItems_sizeOf (d : Dict) : sizeOf (childItems d) ≤ sizeOf d := by
  have h1 := splitFields_sizeOf (sortFields d)
  have h2 := list_sizeOf_append (splitFields (sortFields d)).1
    (splitFields (sortFields d)).2
  have h3 : sizeOf (sortFields d) = sizeOf d :=
    perm_sizeOf_eq (sortFields_perm d)
  unfold childItems
  omega

/-!
### Regular-expression matching

`is_matching_node` evaluates a string pattern with `re.match(pattern,
target)`, which looks for a match of the pattern anchored at the start of
the target (the match may end before the end of the target).  The Python
`re` module is external to the repository; it is modelled here for basic
regular expressions: literal characters, `.` (any character except a
newline), character classes `[...]` with single characters and ranges
(with optional leading negation `^`), backslash-escaped literal
characters, and the postfix quantifiers `*`, `+` and `?`.  Metacharacters
outside this subset are treated as literal characters.
-/

/-- One item inside a character class: a single character or a range. -/
inductive ClsItem where
  | single : Char → ClsItem
  | range : Char → Char → ClsItem

/-- A single-character regex atom. -/
inductive RTok where
  | lit : Char → RTok
  | dot : RTok
  | cls : Bool → List ClsItem → RTok

/-- An atom together with its quantifier (exactly once, `*`, `+`, `?`). -/
inductive RPiece where
  | once : RTok → RPiece
  | star : RTok → RPiece
  | plus : RTok → RPiece
  | opt : RTok → RPiece

/-- Lexer output: an atom, or a quantifier marker to be attached to the
preceding atom. -/
inductive TokQ where
  | atom : RTok → TokQ
  | qstar : TokQ
  | qplus : TokQ
  | qopt : TokQ

mutual

/-- Tokenize a pattern into atoms and quantifier markers. -/
def tokenize : List Char → List TokQ
  | [] => []
  | '\\' :: c :: rest => .atom (.lit c) :: tokenize rest
  | '.' :: rest => .atom .dot :: tokenize rest
  | '*' :: rest => .qstar :: tokenize rest
  | '+' :: rest => .qplus :: tokenize rest
  | '?' :: rest => .qopt :: tokenize rest
  | '[' :: '^' :: rest => tokenizeCls true [] rest
  | '[' :: rest => tokenizeCls false [] rest
  | c :: rest => .atom (.lit c) :: tokenize rest

/-- Accumulate the items of an open character class until the closing
`]`, then continue tokenizing. -/
def tokenizeCls (neg : Bool) (acc : List ClsItem) : List Char → List TokQ
  | [] => [.atom (.cls neg acc.reverse)]
  | ']' :: rest => .atom (.cls neg acc.reverse) :: tokenize rest
  | a :: '-' :: b :: rest =>
    if b = ']' then
      .atom (.cls neg (ClsItem.single '-' :: ClsItem.single a :: acc).reverse)
        :: tokenize rest
    else tokenizeCls neg (ClsItem.range a b :: acc) rest
  | c :: rest => tokenizeCls neg (ClsItem.single c :: acc) rest

end

/-- Attach each quantifier marker to the atom before it.  (A quantifier
with no preceding atom is a pattern error in Python; such a marker is
dropped here.) -/
def assemble : List TokQ → List RPiece
  | [] => []
  | .atom t :: .qstar :: rest => .star t :: assemble rest
  | .atom t :: .qplus :: rest => .plus t :: assemble rest
  | .atom t :: .qopt :: rest => .opt t :: assemble rest
  | .atom t :: rest => .once t :: assemble rest
  | .qstar :: rest => assemble rest
  | .qplus :: rest => assemble rest
  | .qopt :: rest => assemble rest

/-- Parse a pattern string into regex pieces. -/
def parsePattern (pattern : String) : List RPiece :=
  assemble (tokenize pattern.data)

/-- Does a single-character atom match a character? -/
def tokMatch (t : RTok) (c : Char) : Bool :=
  match t with
  | .lit a => a = c
  | .dot => c ≠ '\n'
  | .cls neg items =>
    neg ≠ items.any (fun i =>
      match i with
      | .single a => a = c
      | .range lo hi => lo ≤ c && c ≤ hi)

/-- Does a piece list match the empty text (every remaining piece is a
`*` or `?`)? -/
def emptyMatch : List RPiece → Bool
  | [] => true
  | .once _ :: _ => false
  | .plus _ :: _ => false
  | .opt _ :: ps => emptyMatch ps
  | .star _ :: ps => emptyMatch ps

/-- One step of the backtracking matcher at text head `c`: `k ps` matches
the piece list `ps` against the rest of the text. -/
def stepMatch (k : List RPiece → Bool) (c : Char) : List RPiece → Bool
  | [] => true
  | .once t :: ps => tokMatch t c && k ps
  | .opt t :: ps => (tokMatch t c && k ps) || stepMatch k c ps
  | .star t :: ps => (tokMatch t c && k (.star t :: ps)) || stepMatch k c ps
  | .plus t :: ps => tokMatch t c && k (.star t :: ps)

/-- Backtracking matcher, anchored at the start of the text; the match may
end before the end of the text (the semantics of `re.match` used as a
boolean). -/
def matchFrom : List Char → List RPiece → Bool
  | [], ps => emptyMatch ps
  | c :: cs, ps => stepMatch (matchFrom cs) c ps

/-- `bool(re.match(pattern, target))`. -/
def reMatch (pattern target : String) : Bool :=
  matchFrom target.data (parsePattern pattern)

/-!
### The matching predicate of `Clade.find`

`find(cls, **kwargs)` builds the closure `is_matching_node`: a node
matches when `isinstance(node, cls)` holds and, if keyword patterns were
given, at least one `(key, pattern)` pair matches; evaluating a pair whose
pattern is neither a string (against a string target), a bool, nor an int
raises `RuntimeError('invalid argument: ' + str(pattern))`.
-/

/-- A keyword-argument pattern passed to `find`.  `pstr`, `pbool` and
`pint` are the supported Python types; `pother s` stands for a value of
any other type whose `str()` is `s` (e.g. a float). -/
inductive Pattern where
  | pstr : String → Pattern
  | pbool : Bool → Pattern
  | pint : Int → Pattern
  | pother : String → Pattern

/-- Python truthiness `bool(x)` of an embedded value.  Instances use
`__len__` where the class defines one (`Phyloxml`, `Clade` and `Events`);
every other `PhyloElement` instance is truthy. -/
def pyBool : Value → Bool
  | .vnone => false
  | .vstr s => s ≠ ""
  | .vint n => n ≠ 0
  | .vbool b => b
  | .vdict entries => !entries.isEmpty
  | .vlist xs => !xs.isEmpty
  | .velem .phyloxml d =>
    match lookupAttr d "phylogenies" with
    | some (.vlist xs) => !xs.isEmpty
    | _ => true
  | .velem .clade d =>
    match lookupAttr d "clades" with
    | some (.vlist xs) => !xs.isEmpty
    | _ => true
  | .velem .events d => d.any (fun nv => !isNoneB nv.2)
  | .velem _ _ => true

/-- Python `==` between an int pattern and an arbitrary target value
(`True == 1`, `False == 0`; values of unrelated types compare unequal). -/
def pyEqInt (n : Int) : Value → Bool
  | .vint m => n = m
  | .vbool b => n = (if b then (1 : Int) else 0)
  | _ => false

/-- `isinstance(node, cls)` for an instance of class `k` against the class
tag `cls`: every class in the module inherits directly from
`PhyloElement`, so the match succeeds exactly when `cls` is the base class
or the class itself. -/
def instanceOf (k cls : Kind) : Bool :=
  cls = Kind.phyloElement || k = cls

/-- One iteration of the `for key, pattern in kwargs.iteritems()` loop of
`is_matching_node`, on a node with instance dictionary `d`:

* if the node lacks the attribute, the pair is skipped (`continue`),
  contributing `false`;
* a string pattern against a string target is a prefix-anchored regex
  match; a string pattern against a non-string target falls through every
  `isinstance` test and raises;
* a bool pattern compares against the target's truthiness; an int pattern
  compares by Python `==`; a pattern of any other type raises. -/
def evalPair (d : Dict) (kp : String × Pattern) : Except String Bool :=
  match lookupAttr d kp.1 with
  | none => .ok false
  | some target =>
    match kp.2 with
    | .pstr p =>
      match target with
      | .vstr t => .ok (reMatch p t)
      | _ => .error ("invalid argument: " ++ p)
    | .pbool b => .ok (b = pyBool target)
    | .pint n => .ok (pyEqInt n target)
    | .pother s => .error ("invalid argument: " ++ s)

/-- The whole `kwargs` loop: return `true` at the first matching pair,
propagate the first raised error, `false` when no pair matched. -/
def evalPairs (d : Dict) : List (String × Pattern) → Except String Bool
  | [] => .ok false
  | kp :: rest =>
    match evalPair d kp with
    | .error e => .error e
    | .ok true => .ok true
    | .ok false => evalPairs d rest

/-- `is_matching_node(node)`: class check, then (when `kwargs` is
nonempty) the OR over the attribute pairs. -/
def isMatchingNode (cls : Kind) (kwargs : List (String × Pattern)) :
    Value → Except String Bool
  | .velem k d =>
    if instanceOf k cls then
      if kwargs.isEmpty then .ok true
      else evalPairs d kwargs
    else .ok false
  | _ => .ok false

/-!
### The traversal of `Clade.find`

`local_find(node)` is a generator: it sorts the node's `__dict__` items,
splits them into non-list values (`singles`) and flattened list elements
(`lists`), and then, for each item of `singles + lists` that is a
`PhyloElement`, tests it with `is_matching_node` (yielding it on success)
and recurses into it.  `Clade.find` returns `local_find(self)`, so the
node the method is called on is never itself tested.

The generator is modelled eagerly as the pair of (a) the list of values
it yields, in order, and (b) `some errorMessage` if the traversal raises
(`is_matching_node` raising `RuntimeError`) after those yields, `none` if
it runs to completion.
-/

mutual

/-- `local_find(node)`: iterate over the node's item sequence.  A
non-element argument has no `__dict__` fields to walk (in the module the
generator is only ever entered on `PhyloElement` instances). -/
def localFind (cls : Kind) (kw : List (String × Pattern)) :
    Value → List Value × Option String
  | .velem _ d => localFindItems cls kw (childItems d)
  | _ => ([], none)
termination_by v => sizeOf v
decreasing_by
  rename_i k d
  have h := childItems_sizeOf d
  simp only [Value.velem.sizeOf_spec]
  omega

/-- The `for item in singles + lists` loop body of `local_find`: skip
non-elements; otherwise test the item (an error stops the generator),
yield it on a match, then splice in the recursive results. -/
def localFindItems (cls : Kind) (kw : List (String × Pattern)) :
    List Value → List Value × Option String
  | [] => ([], none)
  | item :: rest =>
    if isElemB item then
      match isMatchingNode cls kw item with
      | .error e => ([], some e)
      | .ok m =>
        match localFind cls kw item with
        | (sub, some e) => ((if m then [item] else []) ++ sub, some e)
        | (sub, none) =>
          ((if m then [item] else []) ++ sub ++ (localFindItems cls kw rest).1,
            (localFindItems cls kw rest).2)
    else localFindItems cls kw rest
termination_by items => sizeOf items
decreasing_by
  all_goals simp only [List.cons.sizeOf_spec]
  all_goals omega

end

/-- `Clade.find(cls, **kwargs)` simply returns `local_find(self)`;
`Phylogeny.find` delegates to `self.clade.find`. -/
def clade_find (cls : Kind) (kw : List (String × Pattern)) (self : Value) :
    List Value × Option String :=
  localFind cls kw self

/-!
### Spec-side description of the traversal order

The specification describes the traversal as: at each node visit the
fields in lexicographic order by field name, skipping absent fields;
visit the non-collection `Element`-valued fields first, then the
flattened elements of the collection fields (each collection in its
original order); recurse only into `Element` values; and yield each node
before any of its descendants.  `specChildElements` and `specPreorder`
below are written from those words.
-/

/-- The element-valued children of a node, in the order the spec
describes: element singles in lexicographic field order, then the element
members of each collection field, collections in lexicographic field
order with their internal order preserved. -/
def specChildElements (d : Dict) : List Value :=
  (sortFields d).filterMap
      (fun nv => if isElemB nv.2 then some nv.2 else none)
    ++ (sortFields d).flatMap
      (fun nv =>
        match nv.2 with
        | .vlist xs => xs.filter isElemB
        | _ => [])

theorem splitFields_filter_elem (dd : Dict) :
    (splitFields dd).1.filter isElemB =
        dd.filterMap (fun nv => if isElemB nv.2 then some nv.2 else none)
      ∧ (splitFields dd).2.filter isElemB =
        dd.flatMap (fun nv =>
          match nv.2 with
          | .vlist xs => xs.filter isElemB
          | _ => []) := by
  induction dd with
  | nil => simp [splitFields]
  | cons nv rest ih =>
    obtain ⟨n, v⟩ := nv
    match v with
    | .vnone =>
      simpa [splitFields, List.filterMap_cons, List.flatMap_cons] using ih
    | .vlist xs =>
      simp only [splitFields, List.filterMap_cons, List.flatMap_cons,
        List.filter_append, isElemB_vlist, if_neg Bool.false_ne_true]
      exact ⟨ih.1, by rw [ih.2]⟩
    | .vstr s =>
      simpa [splitFields, List.filterMap_cons, List.flatMap_cons,
        List.filter_cons] using ih
    | .vint n' =>
      simpa [splitFields, List.filterMap_cons, List.flatMap_cons,
        List.filter_cons] using ih
    | .vbool b =>
      simpa [splitFields, List.filterMap_cons, List.flatMap_cons,
        List.filter_cons] using ih
    | .vdict es =>
      simpa [splitFields, List.filterMap_cons, List.flatMap_cons,
        List.filter_cons] using ih
    | .velem k dd' =>
      simpa [splitFields, List.filterMap_cons, List.flatMap_cons,
        List.filter_cons] using ih

theorem specChildElements_eq (d : Dict) :
    specChildElements d = (childItems d).filter isElemB := by
  have h := splitFields_filter_elem (sortFields d)
  unfold specChildElements childItems
  rw [List.filter_append, h.1, h.2]

theorem filter_sizeOf_le {α : Type} [SizeOf α] (p : α → Bool) (l : List α) :
    sizeOf (l.filter p) ≤ sizeOf l := by
  induction l with
  | nil => simp
  | cons x xs ih =>
    by_cases h : p x = true
    · simp only [List.filter_cons, if_pos h, List.cons.sizeOf_spec]
      omega
    · simp only [List.filter_cons, if_neg h, List.cons.sizeOf_spec]
      omega

theorem specChildElements_sizeOf (d : Dict) :
    sizeOf (specChildElements d) ≤ sizeOf d := by
  rw [specChildElements_eq]
  have h1 := filter_sizeOf_le isElemB (childItems d)
  have h2 := childItems_sizeOf d
  omega

mutual

/-- The pre-order list of descendants of a node, from the spec's words:
each element child contributes itself followed by its own pre-order
descendants; the node itself is not included. -/
def specPreorder : Value → List Value
  | .velem _ d => specPreorderList (specChildElements d)
  | _ => []
termination_by v => sizeOf v
decreasing_by
  rename_i k d
  have h := specChildElements_sizeOf d
  simp only [Value.velem.sizeOf_spec]
  omega

/-- Pre-order over a list of element children. -/
def specPreorderList : List Value → List Value
  | [] => []
  | c :: cs => (c :: specPreorder c) ++ specPreorderList cs
termination_by l => sizeOf l
decreasing_by
  all_goals simp only [List.cons.sizeOf_spec]
  all_goals omega

end

/-- The flat scan corresponding to running `is_matching_node` along a
pre-order candidate list: yields of the accepted candidates up to (and
not including) the first candidate whose test raises. -/
def scanMatches (cls : Kind) (kw : List (String × Pattern)) :
    List Value → List Value × Option String
  | [] => ([], none)
  | x :: xs =>
    match isMatchingNode cls kw x with
    | .error e => ([], some e)
    | .ok m =>
      ((if m then [x] else []) ++ (scanMatches cls kw xs).1,
        (scanMatches cls kw xs).2)

theorem isElemB_iff (v : Value) : isElemB v = true ↔ ∃ k d, v = .velem k d := by
  cases v <;> simp

theorem specPreorder_not_elem (v : Value) (hv : isElemB v = false) :
    specPreorder v = [] := by
  cases v
  case velem k d => simp at hv
  all_goals rw [specPreorder]
  all_goals intro a b h
  all_goals exact Value.noConfusion h

theorem localFind_not_elem (cls : Kind) (kw : List (String × Pattern))
    (v : Value) (hv : isElemB v = false) : localFind cls kw v = ([], none) := by
  cases v
  case velem k d => simp at hv
  all_goals rw [localFind]
  all_goals intro a b h
  all_goals exact Value.noConfusion h

theorem scanMatches_append (cls : Kind) (kw : List (String × Pattern))
    (A B : List Value) :
    scanMatches cls kw (A ++ B) =
      match (scanMatches cls kw A).2 with
      | some e => ((scanMatches cls kw A).1, some e)
      | none => ((scanMatches cls kw A).1 ++ (scanMatches cls kw B).1,
          (scanMatches cls kw B).2) := by
  induction A with
  | nil => simp [scanMatches]
  | cons x xs ih =>
    cases hm : isMatchingNode cls kw x with
    | error e => simp [scanMatches, hm]
    | ok m =>
      rw [List.cons_append]
      simp only [scanMatches, hm]
      rw [ih]
      cases h2 : (scanMatches cls kw xs).2 with
      | some e => simp [h2]
      | none => simp [h2, List.append_assoc]

theorem localFindItems_eq_scan_aux (cls : Kind) (kw : List (String × Pattern)) :
    ∀ (n : Nat) (items : List Value), sizeOf items ≤ n →
      localFindItems cls kw items =
        scanMatches cls kw (specPreorderList (items.filter isElemB)) := by
  intro n
  induction n with
  | zero =>
    intro items h
    exfalso
    cases items with
    | nil => simp [List.nil.sizeOf_spec] at h
    | cons a l => simp only [List.cons.sizeOf_spec] at h; omega
  | succ n ih =>
    intro items h
    cases items with
    | nil => rw [localFindItems]; simp [specPreorderList, scanMatches]
    | cons item rest =>
      have hrest : sizeOf rest ≤ n := by
        simp only [List.cons.sizeOf_spec] at h
        omega
      by_cases he : isElemB item = true
      · obtain ⟨k, d, rfl⟩ := (isElemB_iff item).mp he
        have hd : sizeOf (childItems d) ≤ n := by
          have hc := childItems_sizeOf d
          simp only [List.cons.sizeOf_spec, Value.velem.sizeOf_spec] at h
          omega
        rw [localFindItems, if_pos he, List.filter_cons_of_pos he,
          specPreorderList]
        cases hm : isMatchingNode cls kw (.velem k d) with
        | error e => simp [scanMatches, hm]
        | ok m =>
          rcases hsub : localFind cls kw (.velem k d) with ⟨sub, err⟩
          have hsub2 : scanMatches cls kw (specPreorder (.velem k d)) =
              (sub, err) := by
            rw [← hsub, localFind, specPreorder, ih _ hd,
              specChildElements_eq]
          rw [List.cons_append]
          simp only [scanMatches, hm]
          rw [scanMatches_append, hsub2]
          cases err with
          | some e => simp [hsub]
          | none =>
            rw [ih rest hrest] at *
            simp [hsub, List.append_assoc]
      · rw [localFindItems, if_neg he, List.filter_cons_of_neg he]
        exact ih rest hrest

/-- The source traversal, refactored: `local_find` yields exactly the
accepted candidates of the spec-side pre-order list, stopping at the
first candidate whose test raises. -/
theorem localFind_eq_scan (cls : Kind) (kw : List (String × Pattern))
    (node : Value) :
    localFind cls kw node = scanMatches cls kw (specPreorder node) := by
  by_cases he : isElemB node = true
  · obtain ⟨k, d, rfl⟩ := (isElemB_iff node).mp he
    rw [localFind, specPreorder,
      localFindItems_eq_scan_aux cls kw (sizeOf (childItems d)) _ le_rfl,
      specChildElements_eq]
  · rw [localFind_not_elem cls kw node (by simpa using he),
      specPreorder_not_elem node (by simpa using he)]
    simp [scanMatches]

theorem specPreorderList_sizeOf_aux :
    ∀ (n : Nat) (items : List Value), sizeOf items ≤ n →
      ∀ y ∈ specPreorderList items, sizeOf y < sizeOf items := by
  intro n
  induction n with
  | zero =>
    intro items h
    exfalso
    cases items with
    | nil => simp [List.nil.sizeOf_spec] at h
    | cons a l => simp only [List.cons.sizeOf_spec] at h; omega
  | succ n ih =>
    intro items h y hy
    cases items with
    | nil => rw [specPreorderList] at hy; simp at hy
    | cons c cs =>
      have hcs : sizeOf cs ≤ n := by
        simp only [List.cons.sizeOf_spec] at h
        omega
      rw [specPreorderList] at hy
      simp only [List.cons_append, List.mem_cons, List.mem_append] at hy
      rcases hy with rfl | hy | hy
      · simp only [List.cons.sizeOf_spec]; omega
      · by_cases hce : isElemB c = true
        · obtain ⟨k, d, rfl⟩ := (isElemB_iff c).mp hce
          rw [specPreorder] at hy
          have hd : sizeOf (specChildElements d) ≤ n := by
            have hc := specChildElements_sizeOf d
            simp only [List.cons.sizeOf_spec, Value.velem.sizeOf_spec] at h
            omega
          have h1 := ih _ hd y hy
          have hc := specChildElements_sizeOf d
          simp only [List.cons.sizeOf_spec, Value.velem.sizeOf_spec]
          omega
        · rw [specPreorder_not_elem c (by simpa using hce)] at hy
          simp at hy
      · have := ih cs hcs y hy
        simp only [List.cons.sizeOf_spec]
        omega

/-- Every node in the pre-order list of descendants is strictly smaller
than the root: in particular the root never appears in its own pre-order
list. -/
theorem specPreorder_sizeOf (node : Value) :
    ∀ y ∈ specPreorder node, sizeOf y < sizeOf node := by
  intro y hy
  by_cases he : isElemB node = true
  · obtain ⟨k, d, rfl⟩ := (isElemB_iff node).mp he
    rw [specPreorder] at hy
    have hd := specChildElements_sizeOf d
    have h1 := specPreorderList_sizeOf_aux (sizeOf (specChildElements d)) _
      le_rfl y hy
    simp only [Value.velem.sizeOf_spec]
    omega
  · rw [specPreorder_not_elem node (by simpa using he)] at hy
    simp at hy

theorem specPreorderList_elem_aux :
    ∀ (n : Nat) (items : List Value), sizeOf items ≤ n →
      ∀ y ∈ specPreorderList items, isElemB y = true ∨ y ∈ items := by
  intro n
  induction n with
  | zero =>
    intro items h
    exfalso
    cases items with
    | nil => simp [List.nil.sizeOf_spec] at h
    | cons a l => simp only [List.cons.sizeOf_spec] at h; omega
  | succ n ih =>
    intro items h y hy
    cases items with
    | nil => rw [specPreorderList] at hy; simp at hy
    | cons c cs =>
      have hcs : sizeOf cs ≤ n := by
        simp only [List.cons.sizeOf_spec] at h
        omega
      rw [specPreorderList] at hy
      simp only [List.cons_append, List.mem_cons, List.mem_append] at hy
      rcases hy with rfl | hy | hy
      · exact Or.inr (List.mem_cons_self _ _)
      · by_cases hce : isElemB c = true
        · obtain ⟨k, d, rfl⟩ := (isElemB_iff c).mp hce
          rw [specPreorder] at hy
          have hd : sizeOf (specChildElements d) ≤ n := by
            have hc := specChildElements_sizeOf d
            simp only [List.cons.sizeOf_spec, Value.velem.sizeOf_spec] at h
            omega
          rcases ih _ hd y hy with he | hmem
          · exact Or.inl he
          · rw [specChildElements_eq] at hmem
            exact Or.inl (List.of_mem_filter hmem)
        · rw [specPreorder_not_elem c (by simpa using hce)] at hy
          simp at hy
      · rcases ih cs hcs y hy with he | hmem
        · exact Or.inl he
        · exact Or.inr (List.mem_cons_of_mem _ hmem)

/-- Every value in a node's pre-order list is a `PhyloElement` instance. -/
theorem specPreorder_elem (node : Value) :
    ∀ y ∈ specPreorder node, isElemB y = true := by
  intro y hy
  by_cases he : isElemB node = true
  · obtain ⟨k, d, rfl⟩ := (isElemB_iff node).mp he
    rw [specPreorder] at hy
    rcases specPreorderList_elem_aux (sizeOf (specChildElements d)) _
      le_rfl y hy with h1 | hmem
    · exact h1
    · rw [specChildElements_eq] at hmem
      exact List.of_mem_filter hmem
  · rw [specPreorder_not_elem node (by simpa using he)] at hy
    simp at hy

/-- With the default class and no keyword patterns, every element is
accepted. -/
theorem isMatchingNode_base (x : Value) (hx : isElemB x = true) :
    isMatchingNode .phyloElement [] x = .ok true := by
  obtain ⟨k, d, rfl⟩ := (isElemB_iff x).mp hx
  simp [isMatchingNode, instanceOf]

theorem scanMatches_all_accept (cls : Kind) (kw : List (String × Pattern))
    (l : List Value) (h : ∀ x ∈ l, isMatchingNode cls kw x = .ok true) :
    scanMatches cls kw l = (l, none) := by
  induction l with
  | nil => simp [scanMatches]
  | cons x xs ih =>
    have hx := h x (List.mem_cons_self _ _)
    rw [scanMatches]
    simp only [hx]
    rw [ih (fun y hy => h y (List.mem_cons_of_mem _ hy))]
    simp

theorem scanMatches_sublist (cls : Kind) (kw : List (String × Pattern))
    (l : List Value) : (scanMatches cls kw l).1.Sublist l := by
  induction l with
  | nil => simp [scanMatches]
  | cons x xs ih =>
    cases hm : isMatchingNode cls kw x with
    | error e => simp [scanMatches, hm]
    | ok m =>
      cases m with
      | true =>
        simp [scanMatches, hm]
        exact ih
      | false =>
        simp [scanMatches, hm]
        exact ih.cons x

theorem scanMatches_mem (cls : Kind) (kw : List (String × Pattern))
    (l : List Value) (x : Value) (hok : (scanMatches cls kw l).2 = none)
    (hmem : x ∈ l) (hx : isMatchingNode cls kw x = .ok true) :
    x ∈ (scanMatches cls kw l).1 := by
  induction l with
  | nil => simp at hmem
  | cons y ys ih =>
    cases hm : isMatchingNode cls kw y with
    | error e => simp [scanMatches, hm] at hok
    | ok m =>
      simp only [scanMatches, hm] at hok ⊢
      rcases List.mem_cons.mp hmem with rfl | hmem2
      · rw [hx] at hm
        cases hm
        simp
      · simp only [List.mem_append]
        exact Or.inr (ih hok hmem2)

/-!
### Constructors

Each `__init__` forwards its keyword arguments to `PhyloElement.__init__`,
which copies them into the instance `__dict__`.  Scalar arguments default
to `None` (`vnone` here); collection arguments are stored as `arg or []`,
so both an omitted argument and an explicit `None`/empty list give `[]`.
The constructors' `check_str` calls only emit warnings and never alter the
stored value, so they are not modelled.
-/

/-- `arg or []` for a collection argument (`none` models an unsupplied or
`None` argument). -/
def listOr : Option (List Value) → Value
  | some xs => .vlist xs
  | none => .vlist []

/-- `Phyloxml(attributes, phylogenies=None, other=None)`. -/
def mkPhyloxml (attributes : Value) (phylogenies other : Option (List Value)) :
    Value :=
  .velem .phyloxml
    [("attributes", attributes), ("phylogenies", listOr phylogenies),
      ("other", listOr other)]

/-- `Other(tag, namespace=None, attributes=None, value=None, children=None)`. -/
def mkOther (tag ns attributes value : Value)
    (children : Option (List Value)) : Value :=
  .velem .otherElem
    [("tag", tag), ("namespace", ns), ("attributes", attributes),
      ("value", value), ("children", listOr children)]

/-- `Phylogeny(rooted, ...)`; `rooted` must be a bool (asserted). -/
def mkPhylogeny (rooted : Bool)
    (rerootable branch_length_unit type date clade : Value)
    (name id description : Value)
    (confidences clade_relations sequence_relations properties other :
      Option (List Value)) : Value :=
  .velem .phylogeny
    [("rerootable", rerootable), ("branch_length_unit", branch_length_unit),
      ("type", type), ("rooted", .vbool rooted), ("name", name), ("id", id),
      ("description", description), ("date", date), ("clade", clade),
      ("confidences", listOr confidences),
      ("clade_relations", listOr clade_relations),
      ("sequence_relations", listOr sequence_relations),
      ("properties", listOr properties), ("other", listOr other)]

/-- `Clade(...)`. -/
def mkClade (branch_length id_source name width color node_id events
      binary_characters date : Value)
    (confidences taxonomies sequences distributions references properties
      clades other : Option (List Value)) : Value :=
  .velem .clade
    [("id_source", id_source), ("name", name),
      ("branch_length", branch_length), ("width", width), ("color", color),
      ("node_id", node_id), ("events", events),
      ("binary_characters", binary_characters), ("date", date),
      ("confidences", listOr confidences),
      ("taxonomies", listOr taxonomies), ("sequences", listOr sequences),
      ("distributions", listOr distributions),
      ("references", listOr references), ("properties", listOr properties),
      ("clades", listOr clades), ("other", listOr other)]

/-- `Accession(value, source)` (both arguments are required). -/
def mkAccession (value source : Value) : Value :=
  .velem .accession [("value", value), ("source", source)]

/-- `Annotation(ref=None, source=None, evidence=None, type=None, desc=None,
confidence=None, uri=None, properties=None)`. -/
def mkAnnot (ref source evidence type desc confidence uri : Value)
    (properties : Option (List Value)) : Value :=
  .velem .annot
    [("ref", ref), ("source", source), ("evidence", evidence),
      ("type", type), ("desc", desc), ("confidence", confidence),
      ("uri", uri), ("properties", listOr properties)]

/-- `BinaryCharacters(...)`. -/
def mkBinaryCharacters (type gained_count lost_count present_count
      absent_count : Value)
    (gained lost present absent : Option (List Value)) : Value :=
  .velem .binaryCharacters
    [("type", type), ("gained_count", gained_count),
      ("lost_count", lost_count), ("present_count", present_count),
      ("absent_count", absent_count), ("gained", listOr gained),
      ("lost", listOr lost), ("present", listOr present),
      ("absent", listOr absent)]

/-- `Confidence(value, type)` (both arguments are required). -/
def mkConfidence (value type : Value) : Value :=
  .velem .confidence [("value", value), ("type", type)]

/-- `Distribution(desc=None, points=None, polygons=None)`. -/
def mkDistribution (desc : Value) (points polygons : Option (List Value)) :
    Value :=
  .velem .distribution
    [("desc", desc), ("points", listOr points),
      ("polygons", listOr polygons)]

/-- `DomainArchitecture(length=None, domains=None)`.  Unlike every other
collection field in the module, `domains` is stored as given, without the
`or []` defaulting: an unsupplied `domains` is stored as `None`. -/
def mkDomainArchitecture (length : Value) (domains : Option (List Value)) :
    Value :=
  .velem .domainArchitecture
    [("length", length),
      ("domains", match domains with
        | some xs => .vlist xs
        | none => .vnone)]

/-- `Events(type=None, duplications=None, speciations=None, losses=None,
confidence=None)`. -/
def mkEvents (type duplications speciations losses confidence : Value) :
    Value :=
  .velem .events
    [("type", type), ("duplications", duplications),
      ("speciations", speciations), ("losses", losses),
      ("confidence", confidence)]

/-- `Sequence(...)`. -/
def mkSequence (type id_ref id_source symbol accession name location
      mol_seq uri domain_architecture : Value)
    (annots other : Option (List Value)) : Value :=
  .velem .sequence
    [("type", type), ("id_ref", id_ref), ("id_source", id_source),
      ("symbol", symbol), ("accession", accession), ("name", name),
      ("location", location), ("mol_seq", mol_seq), ("uri", uri),
      ("domain_architecture", domain_architecture),
      ("annotations", listOr annots), ("other", listOr other)]

/-- `Taxonomy(id_source=None, id=None, code=None, scientific_name=None,
rank=None, uri=None, common_names=None, other=None)`. -/
def mkTaxonomy (id_source id code scientific_name rank uri : Value)
    (common_names other : Option (List Value)) : Value :=
  .velem .taxonomy
    [("id_source", id_source), ("id", id), ("code", code),
      ("scientific_name", scientific_name), ("rank", rank), ("uri", uri),
      ("common_names", listOr common_names), ("other", listOr other)]

/-- Read an attribute of an element value. -/
def getAttr (v : Value) (key : String) : Option Value :=
  match v with
  | .velem _ d => lookupAttr d key
  | _ => none

/-!
### Singleton-collection accessors (`Clade.confidence`,
`Phylogeny.confidence`, `Clade.taxonomy`)

Each property raises `RuntimeError` when the backing collection is empty
or has more than one element, and returns the unique element otherwise.
-/

/-- `Clade.confidence`, as a function of `self.confidences`. -/
def clade_confidence (confidences : List Value) : Except String Value :=
  if confidences.length = 0 then .error "Clade().confidences is empty"
  else if confidences.length > 1 then
    .error "more than 1 confidence value available; use Clade().confidences"
  else .ok (confidences.getD 0 .vnone)

/-- `Phylogeny.confidence`, as a function of `self.confidences`. -/
def phylogeny_confidence (confidences : List Value) : Except String Value :=
  if confidences.length = 0 then .error "Phylogeny().confidences is empty"
  else if confidences.length > 1 then
    .error
      "more than 1 confidence value available; use Phylogeny().confidences"
  else .ok (confidences.getD 0 .vnone)

/-- `Clade.taxonomy`, as a function of `self.taxonomies`. -/
def clade_taxonomy (taxonomies : List Value) : Except String Value :=
  if taxonomies.length = 0 then .error "Clade().taxonomies is empty"
  else if taxonomies.length > 1 then
    .error "more than 1 taxonomy value available; use Clade().taxonomies"
  else .ok (taxonomies.getD 0 .vnone)

/-!
### `Phyloxml.__getitem__`

Indexing a document by an int or a slice indexes `self.phylogenies`; a
string key does a linear scan over tree names, returning the first match
and raising `KeyError` on a miss; a key of any other type raises
`KeyError` immediately.
-/

/-- A Python index expression, by type: int, slice (`start:stop`, no
step), string, or a value of any other type (carrying the text Python
prints for its type, used in the error message). -/
inductive PyIndex where
  | int : Int → PyIndex
  | slice : Option Int → Option Int → PyIndex
  | str : String → PyIndex
  | other : String → PyIndex

/-- Result of document indexing: one phylogeny, or a list (for a slice). -/
inductive PyLookup where
  | one : Value → PyLookup
  | many : List Value → PyLookup

/-- A raised Python exception, by class. -/
inductive PyErr where
  | keyError : String → PyErr
  | indexError : String → PyErr

/-- Normalize a Python index: negative indices count from the end. -/
def pyNormIndex (n : Nat) (i : Int) : Int :=
  if i < 0 then i + n else i

/-- Python list indexing `l[i]`, raising `IndexError` when out of range. -/
def pyListGet (l : List Value) (i : Int) : Except PyErr Value :=
  if 0 ≤ pyNormIndex l.length i ∧ pyNormIndex l.length i < (l.length : Int)
  then .ok (l.getD (pyNormIndex l.length i).toNat .vnone)
  else .error (.indexError "list index out of range")

/-- Clamp one bound of a Python slice into `[0, n]`. -/
def pySliceBound (n : Nat) (dflt : Nat) : Option Int → Nat
  | none => dflt
  | some i =>
    let j := pyNormIndex n i
    if j < 0 then 0 else if (n : Int) < j then n else j.toNat

/-- Python list slicing `l[a:b]` (step 1). -/
def pySliceList (l : List Value) (a b : Option Int) : List Value :=
  let s := pySliceBound l.length 0 a
  let e := pySliceBound l.length l.length b
  (l.drop s).take (e - s)

/-- `repr` of a Python string (quoting is modelled without escaping). -/
def pyRepr (s : String) : String := "\x27" ++ s ++ "\x27"

/-- `tree.name == index` for a string index: true exactly when the tree's
`name` attribute is that string. -/
def treeNameEq (tree : Value) (index : String) : Bool :=
  match getAttr tree "name" with
  | some (.vstr s) => s = index
  | _ => false

/-- `Phyloxml.__getitem__`, as a function of `self.phylogenies`. -/
def phyloxml_getitem (phylogenies : List Value) :
    PyIndex → Except PyErr PyLookup
  | .int i =>
    match pyListGet phylogenies i with
    | .ok v => .ok (.one v)
    | .error e => .error e
  | .slice a b => .ok (.many (pySliceList phylogenies a b))
  | .str s =>
    match phylogenies.find? (fun t => treeNameEq t s) with
    | some t => .ok (.one t)
    | none => .error (.keyError ("no phylogeny found with name " ++ pyRepr s))
  | .other typeName =>
    .error (.keyError ("can\x27t use " ++ typeName ++ " as an index"))

/-!
### `Events` as a key/value view

`Events` exposes its own instance dictionary through mapping methods:
`key in e` is `hasattr(self, key) and getattr(self, key) is not None`,
`e[key]` raises `KeyError` when the attribute is missing or `None`, and
`del e[key]` is `setattr(self, key, None)` (which never raises and
creates the attribute when it did not exist).
-/

/-- `Events.__getitem__`, as a function of the instance dictionary. -/
def events_getitem (d : Dict) (key : String) : Except String Value :=
  match lookupAttr d key with
  | none => .error key
  | some .vnone => .error (pyRepr key ++ " has not been set in this object")
  | some v => .ok v

/-- `Events.__delitem__`: set the attribute back to `None`. -/
def events_delitem (d : Dict) (key : String) : Dict :=
  setAttr d key .vnone

/-- `Events.__contains__`. -/
def events_contains (d : Dict) (key : String) : Bool :=
  match lookupAttr d key with
  | some .vnone => false
  | some _ => true
  | none => false

/-!
### `BranchColor.to_rgb`

`to_rgb` returns `hex(red * 16**4 + green * 16**2 + blue)[2:].zfill(6)`.
`hex` of a non-negative int prints the number in base 16 with lowercase
digits and an `0x` prefix (stripped by `[2:]`); `zfill(6)` left-pads with
`'0'` to at least 6 characters.  Channel values are unsigned bytes
(0..255), so the channels are embedded as naturals.
-/

/-- The lowercase hexadecimal digit character for `d < 16`. -/
def hexDigitChar (d : Nat) : Char :=
  if d < 10 then Char.ofNat (48 + d) else Char.ofNat (87 + d)

/-- Base-16 digits of `n`, most significant first, computed with enough
fuel (`fuel ≥ n` suffices since `n` has at most `n` digits). -/
def toHexDigitsFuel : Nat → Nat → List Nat
  | 0, n => [n % 16]
  | fuel + 1, n =>
    if n < 16 then [n] else toHexDigitsFuel fuel (n / 16) ++ [n % 16]

/-- The base-16 digit list of `n`, most significant first (`[0]` for 0). -/
def toHexDigits (n : Nat) : List Nat := toHexDigitsFuel n n

/-- `hex(n)[2:]` for a non-negative int. -/
def pyHex (n : Nat) : String :=
  String.mk ((toHexDigits n).map hexDigitChar)

/-- `s.zfill(k)`: left-pad with `'0'` to at least `k` characters. -/
def zfill (k : Nat) (s : String) : String :=
  if k ≤ s.length then s
  else String.mk (List.replicate (k - s.length) '0') ++ s

/-- `BranchColor.to_rgb`, as a function of the three channel values. -/
def to_rgb (red green blue : Nat) : String :=
  zfill 6 (pyHex (red * 16 ^ 4 + green * 16 ^ 2 + blue))

/-- Decoder (spec side): the value of a lowercase hexadecimal digit
character. -/
def hexVal (c : Char) : Option Nat :=
  if '0' ≤ c ∧ c ≤ '9' then some (c.toNat - 48)
  else if 'a' ≤ c ∧ c ≤ 'f' then some (c.toNat - 87)
  else none

/-- Decoder (spec side): fold a hex digit string into a number. -/
def decodeHexList : List Char → Nat → Option Nat
  | [], acc => some acc
  | c :: cs, acc =>
    match hexVal c with
    | some d => decodeHexList cs (16 * acc + d)
    | none => none

/-- Decoder (spec side): read a 24-bit RGB hex string back into its three
channels. -/
def decodeRgb (s : String) : Option (Nat × Nat × Nat) :=
  match decodeHexList s.data 0 with
  | some n => some (n / 65536, n / 256 % 256, n % 256)
  | none => none

theorem toHexDigitsFuel_lt (fuel : Nat) :
    ∀ n, n ≤ fuel → ∀ d ∈ toHexDigitsFuel fuel n, d < 16 := by
  induction fuel with
  | zero =>
    intro n hn d hd
    simp only [toHexDigitsFuel, List.mem_singleton] at hd
    subst hd
    omega
  | succ fuel ih =>
    intro n hn d hd
    by_cases h16 : n < 16
    · simp only [toHexDigitsFuel, if_pos h16, List.mem_singleton] at hd
      omega
    · simp only [toHexDigitsFuel, if_neg h16, List.mem_append,
        List.mem_singleton] at hd
      rcases hd with hd | hd
      · exact ih (n / 16) (by omega) d hd
      · omega

theorem toHexDigitsFuel_foldl (fuel : Nat) :
    ∀ n acc, n ≤ fuel →
      (toHexDigitsFuel fuel n).foldl (fun a d => 16 * a + d) acc =
        acc * 16 ^ (toHexDigitsFuel fuel n).length + n := by
  induction fuel with
  | zero =>
    intro n acc hn
    have hn0 : n = 0 := by omega
    subst hn0
    simp [toHexDigitsFuel]
    ring
  | succ fuel ih =>
    intro n acc hn
    by_cases h16 : n < 16
    · simp [toHexDigitsFuel, if_pos h16]
      ring
    · have hrec : n / 16 ≤ fuel := by omega
      simp only [toHexDigitsFuel, if_neg h16, List.foldl_append,
        List.foldl_cons, List.foldl_nil, List.length_append,
        List.length_singleton]
      rw [ih (n / 16) acc hrec]
      rw [pow_succ]
      have hmod := Nat.div_add_mod n 16
      ring_nf
      omega

theorem toHexDigitsFuel_length (fuel : Nat) :
    ∀ n k, n ≤ fuel → n < 16 ^ k → 1 ≤ k →
      (toHexDigitsFuel fuel n).length ≤ k := by
  induction fuel with
  | zero =>
    intro n k hn hk h1
    simp only [toHexDigitsFuel, List.length_singleton]
    omega
  | succ fuel ih =>
    intro n k hn hk h1
    by_cases h16 : n < 16
    · simp only [toHexDigitsFuel, if_pos h16, List.length_singleton]
      omega
    · simp only [toHexDigitsFuel, if_neg h16, List.length_append,
        List.length_singleton]
      have hk2 : 2 ≤ k := by
        by_contra hc
        have : k = 1 := by omega
        subst this
        simp [pow_one] at hk
        omega
      have hdiv : n / 16 < 16 ^ (k - 1) := by
        have h16pos : 0 < 16 := by omega
        rw [Nat.div_lt_iff_lt_mul h16pos]
        have : 16 ^ (k - 1) * 16 = 16 ^ k := by
          rw [← pow_succ]
          congr 1
          omega
        omega
      have := ih (n / 16) (k - 1) (by omega) hdiv (by omega)
      omega

theorem hexVal_hexDigitChar : ∀ d, d < 16 → hexVal (hexDigitChar d) = some d := by
  decide

theorem decodeHexList_map (ds : List Nat) :
    ∀ acc, (∀ d ∈ ds, d < 16) →
      decodeHexList (ds.map hexDigitChar) acc =
        some (ds.foldl (fun a d => 16 * a + d) acc) := by
  induction ds with
  | nil => intro acc h; simp [decodeHexList]
  | cons d ds ih =>
    intro acc h
    have hd := h d (List.mem_cons_self _ _)
    simp only [List.map_cons, decodeHexList, hexVal_hexDigitChar d hd]
    exact ih _ (fun x hx => h x (List.mem_cons_of_mem _ hx))

theorem decodeHexList_zeros (k : Nat) (cs : List Char) :
    decodeHexList (List.replicate k '0' ++ cs) 0 = decodeHexList cs 0 := by
  induction k with
  | zero => simp
  | succ k ih =>
    simp only [List.replicate_succ, List.cons_append, decodeHexList]
    have h0 : hexVal '0' = some 0 := by decide
    rw [h0]
    simpa using ih

theorem zfill_data (k : Nat) (s : String) (h : s.length ≤ k) :
    (zfill k s).data = List.replicate (k - s.length) '0' ++ s.data := by
  unfold zfill
  by_cases hk : k ≤ s.length
  · have h0 : k - s.length = 0 := by omega
    simp [hk, h0]
  · simp only [if_neg hk]
    rw [String.data_append]

theorem pyHex_data (n : Nat) :
    (pyHex n).data = (toHexDigits n).map hexDigitChar := rfl

theorem pyHex_length (n : Nat) :
    (pyHex n).length = (toHexDigits n).length := by
  show ((toHexDigits n).map hexDigitChar).length = _
  exact List.length_map _ _

/-- `to_rgb` on channels in 0..255 produces a 6-character lowercase-hex
string that decodes back to the channels. -/
theorem to_rgb_spec (r g b : Nat) (hr : r ≤ 255) (hg : g ≤ 255)
    (hb : b ≤ 255) :
    (to_rgb r g b).length = 6
    ∧ (∀ c ∈ (to_rgb r g b).data, (hexVal c).isSome = true)
    ∧ decodeRgb (to_rgb r g b) = some (r, g, b) := by
  set n := r * 16 ^ 4 + g * 16 ^ 2 + b with hn_def
  have hn_eq : n = r * 65536 + g * 256 + b := by norm_num [hn_def]
  have hn : n < 16 ^ 6 := by norm_num [hn_eq]; omega
  have hdlen : (toHexDigits n).length ≤ 6 :=
    toHexDigitsFuel_length n n 6 le_rfl hn (by omega)
  have hplen : (pyHex n).length ≤ 6 := by rw [pyHex_length]; exact hdlen
  have hdata : (to_rgb r g b).data =
      List.replicate (6 - (pyHex n).length) '0'
        ++ (toHexDigits n).map hexDigitChar := by
    show (zfill 6 (pyHex n)).data = _
    rw [zfill_data 6 (pyHex n) hplen, pyHex_data]
  have hlen : (to_rgb r g b).length = 6 := by
    show (to_rgb r g b).data.length = 6
    rw [hdata]
    simp only [List.length_append, List.length_replicate, List.length_map]
    have := pyHex_length n
    omega
  refine ⟨hlen, ?_, ?_⟩
  · intro c hc
    rw [hdata] at hc
    rcases List.mem_append.mp hc with hc | hc
    · have := List.eq_of_mem_replicate hc
      subst this
      decide
    · obtain ⟨d, hd, rfl⟩ := List.mem_map.mp hc
      have hd16 := toHexDigitsFuel_lt n n le_rfl d hd
      rw [hexVal_hexDigitChar d hd16]
      rfl
  · show decodeRgb (to_rgb r g b) = _
    unfold decodeRgb
    rw [hdata, decodeHexList_zeros]
    simp only [toHexDigits]
    rw [decodeHexList_map _ _ (toHexDigitsFuel_lt n n le_rfl),
      toHexDigitsFuel_foldl n n 0 le_rfl]
    simp only [Nat.zero_mul, Nat.zero_add]
    have h1 : n / 65536 = r := by omega
    have h2 : n / 256 % 256 = g := by omega
    have h3 : n % 256 = b := by omega
    rw [h1, h2, h3]

/-!
### `PhyloElement.__str__` and the `Sequence` record conversions

`__str__` shows the class name together with the first truthy attribute
among `name`, `value`, `id` (`name` and `value` trimmed to 40
characters).  `Sequence.from_seqrecord` builds a Sequence from a generic
sequence record (`Bio.SeqRecord`, external to this module); notably it
builds `Accession('', record.id)` — the record id lands in the
accession's `source` slot and the accession `value` is the empty string.
`Sequence.to_seqrecord` rebuilds a record with `id=str(self.accession)`,
`name=self.symbol`, `description=self.name` and the `mol_seq` residues.

The generic record is modelled with its identity fields and alphabet
tag; records are taken with empty `annotations` and no `features`, so
`from_seqrecord`'s annotation unpacking reduces to the constant
`Annotation({}, {'desc': None, 'confidence': None, 'properties': [None],
'uri': None})` child it builds for an empty `record.annotations`, and no
domain architecture is attached.
-/

/-- The Python class name of each kind (`self.__class__.__name__`). -/
def kindName : Kind → String
  | .phyloElement => "PhyloElement"
  | .phyloxml => "Phyloxml"
  | .otherElem => "Other"
  | .phylogeny => "Phylogeny"
  | .clade => "Clade"
  | .accession => "Accession"
  | .annot => "Annotation"
  | .binaryCharacters => "BinaryCharacters"
  | .branchColor => "BranchColor"
  | .cladeRelation => "CladeRelation"
  | .confidence => "Confidence"
  | .date => "Date"
  | .distribution => "Distribution"
  | .domainArchitecture => "DomainArchitecture"
  | .events => "Events"
  | .idTag => "Id"
  | .point => "Point"
  | .polygon => "Polygon"
  | .property => "Property"
  | .proteinDomain => "ProteinDomain"
  | .reference => "Reference"
  | .sequence => "Sequence"
  | .sequenceRelation => "SequenceRelation"
  | .taxonomy => "Taxonomy"
  | .uri => "Uri"

/-- `trim_str(text, maxlen=40)`: truncate a long string to 37 characters
plus an ellipsis (non-strings are returned unchanged, handled at the
call sites). -/
def trimStr (s : String) : String :=
  if s.length > 40 then s.take 37 ++ "..." else s

/-- `str()` of a primitive Python value, for `%s` formatting (nested
objects are outside the model and render as the empty string). -/
def pyStrOfPrim : Value → String
  | .vstr s => s
  | .vint n => toString n
  | .vbool b => if b then "True" else "False"
  | .vnone => "None"
  | _ => ""

/-- `'%s' % trim_str(val)`: strings are trimmed, other values formatted
by `str()`. -/
def strFieldFmt : Value → String
  | .vstr t => trimStr t
  | w => pyStrOfPrim w

/-- The `id` fallback of `PhyloElement.__str__` (the `id` value is not
trimmed in the source). -/
def strTryId (cn : String) (d : Dict) : String :=
  match lookupAttr d "id" with
  | some v => if pyBool v then cn ++ " " ++ pyStrOfPrim v else cn
  | none => cn

/-- The `value` fallback of `PhyloElement.__str__`. -/
def strTryValue (cn : String) (d : Dict) : String :=
  match lookupAttr d "value" with
  | some v => if pyBool v then cn ++ " " ++ strFieldFmt v else strTryId cn d
  | none => strTryId cn d

/-- `PhyloElement.__str__`: the class name, then the first truthy
attribute among `name`, `value`, `id`. -/
def phyloElementStr : Value → String
  | .velem k d =>
    match lookupAttr d "name" with
    | some nv =>
      if pyBool nv then kindName k ++ " " ++ strFieldFmt nv
      else strTryValue (kindName k) d
    | none => strTryValue (kindName k) d
  | w => pyStrOfPrim w

/-- The alphabet tag of the external generic record type. -/
inductive Alpha where
  | dna
  | rna
  | protein
  | generic
deriving DecidableEq

/-- The external generic sequence record (`Bio.SeqRecord` with a typed
`Bio.Seq` inside), reduced to the fields the conversions read and write:
identifier, short name, description, residue string and alphabet tag. -/
structure SeqRecordM where
  id : String
  name : String
  description : String
  seq : String
  alphabet : Alpha
deriving DecidableEq

/-- `alphabets.get(self.type, generic_alphabet)` of `to_seqrecord`. -/
def alphaOfType : Option Value → Alpha
  | some (.vstr "dna") => .dna
  | some (.vstr "rna") => .rna
  | some (.vstr "aa") => .protein
  | _ => .generic

/-- `Sequence.from_seqrecord(record)` for a record with empty
`annotations` and no `features`. -/
def from_seqrecord (rec : SeqRecordM) : Value :=
  mkSequence
    (match rec.alphabet with
      | .dna => .vstr "dna"
      | .rna => .vstr "rna"
      | .protein => .vstr "aa"
      | .generic => .vnone)
    .vnone
    .vnone
    (.vstr rec.name)
    (mkAccession (.vstr "") (.vstr rec.id))
    (.vstr rec.description)
    .vnone
    (.vstr rec.seq)
    .vnone
    .vnone
    (some [mkAnnot (.vdict [])
      (.vdict [("desc", .vnone), ("confidence", .vnone),
        ("properties", .vlist [.vnone]), ("uri", .vnone)])
      .vnone .vnone .vnone .vnone .vnone none])
    none

/-- `Sequence.to_seqrecord()`: rebuild a record with
`id=str(self.accession)`, `name=self.symbol`, `description=self.name`,
the `mol_seq` residues and the alphabet looked up from `self.type`.
Defined when the symbol, name and residue fields hold strings (the
record model's fields are strings). -/
def to_seqrecord (v : Value) : Option SeqRecordM :=
  match v with
  | .velem _ d =>
    match lookupAttr d "accession", lookupAttr d "mol_seq",
        lookupAttr d "symbol", lookupAttr d "name" with
    | some acc, some (.vstr ms), some (.vstr sym), some (.vstr nm) =>
      some (SeqRecordM.mk (phyloElementStr acc) sym nm ms
        (alphaOfType (lookupAttr d "type")))
    | _, _, _, _ => none
  | _ => none

/-- The instance dictionary built by `Events.__init__`. -/
def eventsDict (type duplications speciations losses confidence : Value) :
    Dict :=
  [("type", type), ("duplications", duplications),
    ("speciations", speciations), ("losses", losses),
    ("confidence", confidence)]

theorem evalPairs_ok_true (d : Dict) :
    ∀ (kws : List (String × Pattern)),
      (∀ kp ∈ kws, ∃ bv, evalPair d kp = .ok bv) →
      (∃ kp ∈ kws, evalPair d kp = .ok true) →
      evalPairs d kws = .ok true := by
  intro kws
  induction kws with
  | nil =>
    intro _ hone
    obtain ⟨kp, hkp, _⟩ := hone
    simp at hkp
  | cons kp rest ih =>
    intro hsafe hone
    obtain ⟨bv, hbv⟩ := hsafe kp (List.mem_cons_self _ _)
    cases bv with
    | true => simp [evalPairs, hbv]
    | false =>
      rw [evalPairs, hbv]
      apply ih (fun x hx => hsafe x (List.mem_cons_of_mem _ hx))
      obtain ⟨kp2, hkp2, hkp2t⟩ := hone
      rcases List.mem_cons.mp hkp2 with rfl | hmem
      · rw [hbv] at hkp2t
        cases hkp2t
      · exact ⟨kp2, hmem, hkp2t⟩

theorem find?_first {α : Type} (p : α → Bool) (l1 : List α) (t : α)
    (l2 : List α) (h1 : ∀ u ∈ l1, p u = false) (ht : p t = true) :
    (l1 ++ t :: l2).find? p = some t := by
  induction l1 with
  | nil => simp [List.find?_cons_of_pos _ ht]
  | cons a l ih =>
    have ha := h1 a (List.mem_cons_self _ _)
    rw [List.cons_append, List.find?_cons_of_neg _ (by simp [ha])]
    exact ih (fun u hu => h1 u (List.mem_cons_of_mem _ hu))

/-!
### The claims
-/

/-- C1: for every node and every `find` call supplying two or more
attribute patterns, a candidate node of the requested kind is accepted as
soon as at least one `(key, pattern)` pair matches — logical OR across
the supplied patterns — even when every other pair fails to match (no
pair raising); and such an accepted node is among the values yielded by
`find` whenever the traversal reaches it without raising. -/
theorem C1_find_or_semantics (k : Kind) (d : Dict) (cls : Kind)
    (kwargs : List (String × Pattern))
    (hn : 2 ≤ kwargs.length)
    (hinst : instanceOf k cls = true)
    (hsafe : ∀ kp ∈ kwargs, ∃ bv, evalPair d kp = .ok bv)
    (hone : ∃ kp ∈ kwargs, evalPair d kp = .ok true) :
    isMatchingNode cls kwargs (.velem k d) = .ok true
    ∧ ∀ root, (localFind cls kwargs root).2 = none →
        (Value.velem k d) ∈ specPreorder root →
        (Value.velem k d) ∈ (localFind cls kwargs root).1 := by
  have hmatch : isMatchingNode cls kwargs (.velem k d) = .ok true := by
    rw [isMatchingNode, if_pos hinst]
    have hne : kwargs.isEmpty = false := by
      cases kwargs with
      | nil => simp at hn
      | cons a l => rfl
    rw [hne, if_neg (by decide)]
    exact evalPairs_ok_true d kwargs hsafe hone
  refine ⟨hmatch, ?_⟩
  intro root hok hmem
  rw [localFind_eq_scan] at hok ⊢
  exact scanMatches_mem cls kwargs (specPreorder root) _ hok hmem hmatch

/-- Witness for C1: `find(code="XXXXX", rank="species")` semantics on a
`Taxonomy(code="ABCDE", rank="species")` node: the `code` pair fails, the
`rank` pair matches, and the node is accepted. -/
theorem C1_find_or_semantics_witness :
    isMatchingNode .taxonomy
      [("code", .pstr "XXXXX"), ("rank", .pstr "species")]
      (mkTaxonomy .vnone .vnone (.vstr "ABCDE") .vnone (.vstr "species")
        .vnone none none)
      = .ok true := by
  have h := C1_find_or_semantics .taxonomy
    [("id_source", .vnone), ("id", .vnone), ("code", .vstr "ABCDE"),
      ("scientific_name", .vnone), ("rank", .vstr "species"),
      ("uri", .vnone), ("common_names", .vlist []), ("other", .vlist [])]
    .taxonomy [("code", .pstr "XXXXX"), ("rank", .pstr "species")]
    (by decide) (by decide) ?hsafe ?hone
  · exact h.1
  case hsafe =>
    intro kp hkp
    rcases List.mem_cons.mp hkp with rfl | hkp2
    · exact ⟨false, rfl⟩
    rcases List.mem_cons.mp hkp2 with rfl | hkp3
    · exact ⟨true, rfl⟩
    · simp at hkp3
  case hone =>
    exact ⟨("rank", .pstr "species"),
      List.mem_cons_of_mem _ (List.mem_cons_self _ _), rfl⟩

/-- C2: `find` traverses the subtree in a deterministic depth-first
pre-order.  With no class or attribute constraints it yields exactly the
spec-side pre-order list (fields in lexicographic order by name, absent
fields skipped, non-collection element fields before the flattened
collection elements with each collection's order preserved, only
elements recursed into, each node before its own descendants); every
constrained `find` yields an order-preserving subsequence of that list;
and the node `find` is invoked on is itself never yielded. -/
theorem C2_find_traversal_preorder (node : Value) :
    localFind .phyloElement [] node = (specPreorder node, none)
    ∧ (∀ cls kw, ((localFind cls kw node).1).Sublist (specPreorder node))
    ∧ (∀ cls kw, node ∉ (localFind cls kw node).1) := by
  refine ⟨?_, ?_, ?_⟩
  · rw [localFind_eq_scan]
    exact scanMatches_all_accept _ _ _
      (fun x hx => isMatchingNode_base x (specPreorder_elem node x hx))
  · intro cls kw
    rw [localFind_eq_scan]
    exact scanMatches_sublist _ _ _
  · intro cls kw hmem
    rw [localFind_eq_scan] at hmem
    have h1 := (scanMatches_sublist cls kw (specPreorder node)).subset hmem
    have h2 := specPreorder_sizeOf node node h1
    omega

/-- C3 counterexample: a string pattern evaluated against a candidate
node that possesses the queried field with a non-string (int) value
raises the invalid-argument `RuntimeError`, so a string pattern can
cause the error, contrary to the claim. -/
theorem C3_string_pattern_error_counterexample :
    isMatchingNode .clade [("width", .pstr "x")]
      (mkClade .vnone .vnone .vnone (.vint 2) .vnone .vnone .vnone .vnone
        .vnone none none none none none none none none)
      = .error "invalid argument: x" := rfl

/-- C3 (amended): evaluating an attribute pair signals the
invalid-argument error exactly when the candidate node possesses the
field and either the pattern's type is not string/bool/int, or the
pattern is a string while the field's value is not a string; bool and
int patterns never cause the error, and a string pattern against a
string-valued field never does. -/
theorem C3_invalid_argument_amended :
    (∀ (d : Dict) (key : String) (bv : Bool),
      ∃ v, evalPair d (key, .pbool bv) = .ok v)
    ∧ (∀ (d : Dict) (key : String) (n : Int),
      ∃ v, evalPair d (key, .pint n) = .ok v)
    ∧ (∀ (d : Dict) (key s : String),
      (∃ e, evalPair d (key, .pstr s) = .error e) ↔
        ∃ t, lookupAttr d key = some t ∧ isStrB t = false)
    ∧ (∀ (d : Dict) (key r : String),
      (∃ e, evalPair d (key, .pother r) = .error e) ↔
        ∃ t, lookupAttr d key = some t) := by
  refine ⟨?_, ?_, ?_, ?_⟩
  · intro d key bv
    cases h : lookupAttr d key with
    | none => exact ⟨false, by simp [evalPair, h]⟩
    | some t => exact ⟨decide (bv = pyBool t), by simp [evalPair, h]⟩
  · intro d key n
    cases h : lookupAttr d key with
    | none => exact ⟨false, by simp [evalPair, h]⟩
    | some t => exact ⟨pyEqInt n t, by simp [evalPair, h]⟩
  · intro d key s
    constructor
    · rintro ⟨e, he⟩
      unfold evalPair at he
      cases h : lookupAttr d key with
      | none => rw [h] at he; cases he
      | some t =>
        rw [h] at he
        refine ⟨t, rfl, ?_⟩
        cases t <;> first | rfl | (simp at he)
    · rintro ⟨t, ht, hstr⟩
      refine ⟨"invalid argument: " ++ s, ?_⟩
      unfold evalPair
      rw [ht]
      cases t <;> first | rfl | (simp [isStrB] at hstr)
  · intro d key r
    constructor
    · rintro ⟨e, he⟩
      unfold evalPair at he
      cases h : lookupAttr d key with
      | none => rw [h] at he; cases he
      | some t => exact ⟨t, rfl⟩
    · rintro ⟨t, ht⟩
      refine ⟨"invalid argument: " ++ r, ?_⟩
      unfold evalPair
      rw [ht]

/-- C4 (documents the divergence): the `from_seqrecord`/`to_seqrecord`
round trip preserves the record's name/symbol, description, residue
string and alphabet, but the identifier always comes back as
`"Accession"`: `from_seqrecord` builds `Accession('', record.id)` (the
id lands in the `source` slot and `value` is `''`), so
`id=str(self.accession)` falls back to the bare class name. -/
theorem C4_seqrecord_roundtrip (rec : SeqRecordM) :
    to_seqrecord (from_seqrecord rec)
      = some (SeqRecordM.mk "Accession" rec.name rec.description rec.seq
          rec.alphabet) := by
  obtain ⟨i, nm, ds, sq, al⟩ := rec
  cases al <;> rfl

/-- C5: each singleton accessor (`Clade.confidence`,
`Phylogeny.confidence`, `Clade.taxonomy`) raises a runtime error on an
empty backing collection, returns the unique element of a singleton
collection, and raises a runtime error naming the plural accessor when
the collection has two or more elements. -/
theorem C5_singleton_accessors (xs : List Value) :
    (xs = [] →
      clade_confidence xs = .error "Clade().confidences is empty"
      ∧ phylogeny_confidence xs = .error "Phylogeny().confidences is empty"
      ∧ clade_taxonomy xs = .error "Clade().taxonomies is empty")
    ∧ (∀ x, xs = [x] →
      clade_confidence xs = .ok x
      ∧ phylogeny_confidence xs = .ok x
      ∧ clade_taxonomy xs = .ok x)
    ∧ (2 ≤ xs.length →
      clade_confidence xs = .error
        "more than 1 confidence value available; use Clade().confidences"
      ∧ phylogeny_confidence xs = .error
        "more than 1 confidence value available; use Phylogeny().confidences"
      ∧ clade_taxonomy xs = .error
        "more than 1 taxonomy value available; use Clade().taxonomies") := by
  refine ⟨?_, ?_, ?_⟩
  · rintro rfl
    exact ⟨rfl, rfl, rfl⟩
  · rintro x rfl
    exact ⟨rfl, rfl, rfl⟩
  · intro h
    unfold clade_confidence phylogeny_confidence clade_taxonomy
    refine ⟨?_, ?_, ?_⟩ <;> rw [if_neg (by omega), if_pos (by omega)]

/-- Witness for C5, at a `Confidence`-like element: empty, singleton and
two-element collections. -/
theorem C5_singleton_accessors_witness :
    clade_confidence [] = .error "Clade().confidences is empty"
    ∧ phylogeny_confidence [] = .error "Phylogeny().confidences is empty"
    ∧ clade_taxonomy [] = .error "Clade().taxonomies is empty"
    ∧ clade_confidence [mkConfidence (.vint 95) (.vstr "bootstrap")]
        = .ok (mkConfidence (.vint 95) (.vstr "bootstrap"))
    ∧ clade_confidence
        [mkConfidence (.vint 95) (.vstr "bootstrap"),
          mkConfidence (.vint 33) (.vstr "bootstrap")]
        = .error
          "more than 1 confidence value available; use Clade().confidences" := by
  have h0 := (C5_singleton_accessors []).1 rfl
  have h1 := (C5_singleton_accessors
    [mkConfidence (.vint 95) (.vstr "bootstrap")]).2.1
    (mkConfidence (.vint 95) (.vstr "bootstrap")) rfl
  have h2 := (C5_singleton_accessors
    [mkConfidence (.vint 95) (.vstr "bootstrap"),
      mkConfidence (.vint 33) (.vstr "bootstrap")]).2.2 (by decide)
  exact ⟨h0.1, h0.2.1, h0.2.2, h1.1, h2.1⟩

/-- C6: indexing a document by a string name returns the first phylogeny
with that name in original order (in particular the unique one when the
name occurs once); a name matching no phylogeny raises the not-found
`KeyError`; and indexing with a key that is neither an integer, a slice
nor a string also raises a `KeyError`. -/
theorem C6_phyloxml_getitem (ps : List Value) (n : String) :
    ((∀ t ∈ ps, treeNameEq t n = false) →
      phyloxml_getitem ps (.str n) =
        .error (.keyError ("no phylogeny found with name " ++ pyRepr n)))
    ∧ (∀ (l1 : List Value) (t : Value) (l2 : List Value),
        ps = l1 ++ t :: l2 → (∀ u ∈ l1, treeNameEq u n = false) →
        treeNameEq t n = true →
        phyloxml_getitem ps (.str n) = .ok (.one t))
    ∧ (∀ typeName, phyloxml_getitem ps (.other typeName) =
        .error (.keyError ("can\x27t use " ++ typeName ++ " as an index"))) := by
  have hstr : ∀ (qs : List Value),
      phyloxml_getitem qs (.str n) =
        match qs.find? (fun t => treeNameEq t n) with
        | some t => .ok (.one t)
        | none =>
          .error (.keyError ("no phylogeny found with name " ++ pyRepr n)) :=
    fun _ => rfl
  refine ⟨?_, ?_, ?_⟩
  · intro h
    rw [hstr, List.find?_eq_none.mpr (fun x hx => by simp [h x hx])]
  · intro l1 t l2 hps h1 ht
    subst hps
    rw [hstr, find?_first _ l1 t l2 h1 ht]
  · intro typeName
    rfl

/-- Witness for C6: a document with trees named `x`, `y`, `y`: indexing
by `"y"` returns the first of the two `y` trees, indexing by an absent
name or by a float key raises `KeyError`. -/
theorem C6_phyloxml_getitem_witness :
    phyloxml_getitem
      [mkPhylogeny true .vnone .vnone .vnone .vnone .vnone (.vstr "x")
          .vnone .vnone none none none none none,
        mkPhylogeny true .vnone .vnone .vnone .vnone .vnone (.vstr "y")
          (.vint 1) .vnone none none none none none,
        mkPhylogeny true .vnone .vnone .vnone .vnone .vnone (.vstr "y")
          (.vint 2) .vnone none none none none none]
      (.str "y")
      = .ok (.one (mkPhylogeny true .vnone .vnone .vnone .vnone .vnone
          (.vstr "y") (.vint 1) .vnone none none none none none))
    ∧ phyloxml_getitem
        [mkPhylogeny true .vnone .vnone .vnone .vnone .vnone (.vstr "x")
          .vnone .vnone none none none none none]
        (.str "zz")
        = .error (.keyError ("no phylogeny found with name \x27zz\x27"))
    ∧ phyloxml_getitem [] (.other "<type \x27float\x27>")
        = .error (.keyError "can\x27t use <type \x27float\x27> as an index") := by
  refine ⟨?_, ?_, ?_⟩
  · exact (C6_phyloxml_getitem
      [mkPhylogeny true .vnone .vnone .vnone .vnone .vnone (.vstr "x")
          .vnone .vnone none none none none none,
        mkPhylogeny true .vnone .vnone .vnone .vnone .vnone (.vstr "y")
          (.vint 1) .vnone none none none none none,
        mkPhylogeny true .vnone .vnone .vnone .vnone .vnone (.vstr "y")
          (.vint 2) .vnone none none none none none] "y").2.1
      [mkPhylogeny true .vnone .vnone .vnone .vnone .vnone (.vstr "x")
          .vnone .vnone none none none none none]
      (mkPhylogeny true .vnone .vnone .vnone .vnone .vnone (.vstr "y")
          (.vint 1) .vnone none none none none none)
      [mkPhylogeny true .vnone .vnone .vnone .vnone .vnone (.vstr "y")
          (.vint 2) .vnone none none none none none]
      rfl
      (by
        intro u hu
        rcases List.mem_cons.mp hu with rfl | hu2
        · rfl
        · simp at hu2)
      rfl
  · exact (C6_phyloxml_getitem
      [mkPhylogeny true .vnone .vnone .vnone .vnone .vnone (.vstr "x")
          .vnone .vnone none none none none none] "zz").1
      (by
        intro t ht
        rcases List.mem_cons.mp ht with rfl | ht2
        · rfl
        · simp at ht2)
  · exact (C6_phyloxml_getitem [] "unused").2.2 "<type \x27float\x27>"

/-- C7: for channel values in 0..255, `to_rgb` returns exactly six
lowercase hexadecimal digits — the zero-padded base-16 representation of
`red*65536 + green*256 + blue` — which decode back to the three
channels; in particular `BranchColor(12, 200, 100).to_rgb()` is
`"0cc864"`. -/
theorem C7_branchcolor_to_rgb (r g b : Nat) (hr : r ≤ 255) (hg : g ≤ 255)
    (hb : b ≤ 255) :
    (to_rgb r g b).length = 6
    ∧ (∀ c ∈ (to_rgb r g b).data, (hexVal c).isSome = true)
    ∧ decodeRgb (to_rgb r g b) = some (r, g, b)
    ∧ to_rgb 12 200 100 = "0cc864" := by
  have h := to_rgb_spec r g b hr hg hb
  exact ⟨h.1, h.2.1, h.2.2, by decide⟩

/-- Witness for C7, at the documented example color `(12, 200, 100)`. -/
theorem C7_branchcolor_to_rgb_witness :
    (to_rgb 12 200 100).length = 6
    ∧ decodeRgb (to_rgb 12 200 100) = some (12, 200, 100)
    ∧ to_rgb 12 200 100 = "0cc864" := by
  have h := C7_branchcolor_to_rgb 12 200 100 (by decide) (by decide)
    (by decide)
  exact ⟨h.1, h.2.2.1, h.2.2.2⟩

/-- C8 counterexample: constructing a `DomainArchitecture` without
supplying `domains` stores the absent value `None`, not an empty list —
the claim fails for this one collection field. -/
theorem C8_domains_default_counterexample :
    getAttr (mkDomainArchitecture .vnone none) "domains" = some .vnone
    ∧ some Value.vnone ≠ some (Value.vlist []) := by
  refine ⟨rfl, ?_⟩
  intro h
  injection h with h2
  exact Value.noConfusion h2

/-- C8 (amended): constructing any element kind without supplying a
collection field yields an empty ordered sequence for that field — for
every collection field of every kind except `DomainArchitecture`'s
`domains`, which (lacking the `or []` default) is stored as the absent
value `None`. -/
theorem C8_collection_defaults_amended :
    (∀ a, getAttr (mkPhyloxml a none none) "phylogenies" = some (.vlist [])
      ∧ getAttr (mkPhyloxml a none none) "other" = some (.vlist []))
    ∧ (∀ t ns a v,
      getAttr (mkOther t ns a v none) "children" = some (.vlist []))
    ∧ (∀ ro a b c d e f g h,
      getAttr (mkPhylogeny ro a b c d e f g h none none none none none)
        "confidences" = some (.vlist [])
      ∧ getAttr (mkPhylogeny ro a b c d e f g h none none none none none)
        "clade_relations" = some (.vlist [])
      ∧ getAttr (mkPhylogeny ro a b c d e f g h none none none none none)
        "sequence_relations" = some (.vlist [])
      ∧ getAttr (mkPhylogeny ro a b c d e f g h none none none none none)
        "properties" = some (.vlist [])
      ∧ getAttr (mkPhylogeny ro a b c d e f g h none none none none none)
        "other" = some (.vlist []))
    ∧ (∀ a b c d e f g h i,
      getAttr (mkClade a b c d e f g h i none none none none none none
        none none) "confidences" = some (.vlist [])
      ∧ getAttr (mkClade a b c d e f g h i none none none none none none
        none none) "taxonomies" = some (.vlist [])
      ∧ getAttr (mkClade a b c d e f g h i none none none none none none
        none none) "sequences" = some (.vlist [])
      ∧ getAttr (mkClade a b c d e f g h i none none none none none none
        none none) "distributions" = some (.vlist [])
      ∧ getAttr (mkClade a b c d e f g h i none none none none none none
        none none) "references" = some (.vlist [])
      ∧ getAttr (mkClade a b c d e f g h i none none none none none none
        none none) "properties" = some (.vlist [])
      ∧ getAttr (mkClade a b c d e f g h i none none none none none none
        none none) "clades" = some (.vlist [])
      ∧ getAttr (mkClade a b c d e f g h i none none none none none none
        none none) "other" = some (.vlist []))
    ∧ (∀ a b c d e f g,
      getAttr (mkAnnot a b c d e f g none) "properties" = some (.vlist []))
    ∧ (∀ a b c d e,
      getAttr (mkBinaryCharacters a b c d e none none none none) "gained"
        = some (.vlist [])
      ∧ getAttr (mkBinaryCharacters a b c d e none none none none) "lost"
        = some (.vlist [])
      ∧ getAttr (mkBinaryCharacters a b c d e none none none none)
        "present" = some (.vlist [])
      ∧ getAttr (mkBinaryCharacters a b c d e none none none none)
        "absent" = some (.vlist []))
    ∧ (∀ a, getAttr (mkDistribution a none none) "points" = some (.vlist [])
      ∧ getAttr (mkDistribution a none none) "polygons" = some (.vlist []))
    ∧ (∀ a b c d e f g h i j,
      getAttr (mkSequence a b c d e f g h i j none none) "annotations"
        = some (.vlist [])
      ∧ getAttr (mkSequence a b c d e f g h i j none none) "other"
        = some (.vlist []))
    ∧ (∀ a b c d e f,
      getAttr (mkTaxonomy a b c d e f none none) "common_names"
        = some (.vlist [])
      ∧ getAttr (mkTaxonomy a b c d e f none none) "other"
        = some (.vlist []))
    ∧ (∀ a, getAttr (mkDomainArchitecture a none) "domains"
        = some .vnone) := by
  refine ⟨?_, ?_, ?_, ?_, ?_, ?_, ?_, ?_, ?_, ?_⟩
  · intro a; exact ⟨rfl, rfl⟩
  · intro t ns a v; rfl
  · intro ro a b c d e f g h; exact ⟨rfl, rfl, rfl, rfl, rfl⟩
  · intro a b c d e f g h i
    exact ⟨rfl, rfl, rfl, rfl, rfl, rfl, rfl, rfl⟩
  · intro a b c d e f g; rfl
  · intro a b c d e; exact ⟨rfl, rfl, rfl, rfl⟩
  · intro a; exact ⟨rfl, rfl⟩
  · intro a b c d e f g h i j; exact ⟨rfl, rfl⟩
  · intro a b c d e f; exact ⟨rfl, rfl⟩
  · intro a; rfl

/-- C9: for every `Events` object, `'type' in e` holds exactly when the
`type` field is not absent; `e[k]` raises `KeyError` both when the field
`k` is present but absent-valued (`None`) and when `k` is not a known
field name; and `del e['type']` sets the field back to `None`, after
which `'type' in e` is false while the `type` entry itself remains part
of the structure. -/
theorem C9_events_mapping (t dup sp lo conf : Value) :
    (events_contains (eventsDict t dup sp lo conf) "type" = true
      ↔ t ≠ .vnone)
    ∧ (∀ key,
      (lookupAttr (eventsDict t dup sp lo conf) key = none
        ∨ lookupAttr (eventsDict t dup sp lo conf) key = some .vnone) →
      ∃ msg, events_getitem (eventsDict t dup sp lo conf) key = .error msg)
    ∧ (events_contains
        (events_delitem (eventsDict t dup sp lo conf) "type") "type"
          = false
      ∧ lookupAttr (events_delitem (eventsDict t dup sp lo conf) "type")
          "type" = some .vnone) := by
  refine ⟨?_, ?_, rfl, rfl⟩
  · cases t <;> simp [events_contains, eventsDict, lookupAttr]
  · intro key hk
    rcases hk with hk | hk
    · exact ⟨key, by simp [events_getitem, hk]⟩
    · exact ⟨pyRepr key ++ " has not been set in this object",
        by simp [events_getitem, hk]⟩

/-- Witness for C9: an `Events(type='speciation_or_duplication')`
object: membership of `type`, `KeyError` on an absent field and on an
unknown key, and deletion of `type`. -/
theorem C9_events_mapping_witness :
    events_contains
      (eventsDict (.vstr "speciation_or_duplication") .vnone .vnone .vnone
        .vnone) "type" = true
    ∧ (∃ msg, events_getitem
        (eventsDict (.vstr "speciation_or_duplication") .vnone .vnone
          .vnone .vnone) "duplications" = .error msg)
    ∧ (∃ msg, events_getitem
        (eventsDict (.vstr "speciation_or_duplication") .vnone .vnone
          .vnone .vnone) "florp" = .error msg)
    ∧ events_contains
        (events_delitem
          (eventsDict (.vstr "speciation_or_duplication") .vnone .vnone
            .vnone .vnone) "type") "type" = false := by
  have h := C9_events_mapping (.vstr "speciation_or_duplication") .vnone
    .vnone .vnone .vnone
  exact ⟨h.1.mpr (by simp), h.2.1 "duplications" (Or.inr rfl),
    h.2.1 "florp" (Or.inl rfl), h.2.2.1⟩

/-- C10: `del e[k]` on an `Events` object always succeeds — the
operation is total even for a key that is not one of the five field
names — and afterwards `k in e` is false; instead of raising a
not-found error, deleting an unknown key creates that attribute set to
the absent value `None`. -/
theorem C10_events_delitem_total (d : Dict) (key : String) :
    events_contains (events_delitem d key) key = false
    ∧ lookupAttr (events_delitem d key) key = some .vnone := by
  have h := lookupAttr_setAttr_self d key .vnone
  constructor
  · simp [events_contains, events_delitem, h]
  · exact h

end PhyloXML
